import Mathlib

/-!
Verification development for the `dsi_watershed_delineation` repository.

The definitions below are a shallow embedding of the delineation engine:
`src/delineator.py` (`calculate_upstream_v1`, `calculate_upstream_v2`),
`src/snap_pour_point.py` (`resample_matrix`, `calculate_new_pour_point`),
`src/polygonize.py` (`raster_to_polygon`), and the per-point batch loop of
`src/processing.py` (`process_watershed_points`).

Conventions of the embedding:
- numpy 2D arrays become a `Grid` structure: a `(rows, cols)` shape plus a
  total lookup function `data : ℕ → ℕ → ℤ`; concrete grids are built from
  row-major lists with `Grid.ofList` (missing entries read as 0; the code
  only ever reads in-bounds entries after explicit bounds checks or a
  wrap-around normalisation, mirroring numpy indexing).
- Python `%` on ints with a positive modulus is Euclidean remainder, which
  coincides with Lean's `Int.emod` (`%`) for a positive modulus.  numpy
  fixed-width arithmetic `(d - 1) % 8` also agrees with `ℤ` arithmetic
  since the width is a multiple of 8 (2^w ≡ 0 [MOD 8]).
- numpy indexing with a possibly negative index wraps indices in
  `[-n, n)` and raises `IndexError` outside that range; this is `wrapIdx`
  returning `Option ℕ` (`none` models the invalid access).
- the boolean/int8 output array of the upstream trace becomes a `Mask`:
  shape plus the `Finset` of cells holding 1.
- the iterative trace of `calculate_upstream_v2` has no termination
  guarantee in the source (its `while stack` loop has no visited guard),
  so its loop is embedded with explicit fuel: `none` means the loop has
  not finished within the given fuel.
-/

namespace Dsi

/-- The D8 offset table, literally from the source:
`offsets = [(0, 1), (-1, 1), (-1, 0), (-1, -1), (0, -1), (1, -1), (1, 0), (1, 1)]`. -/
def offsets : List (ℤ × ℤ) :=
  [(0, 1), (-1, 1), (-1, 0), (-1, -1), (0, -1), (1, -1), (1, 0), (1, 1)]

/-- `offsets[direction]` (the source only evaluates it for `direction < 8`). -/
def off (k : ℕ) : ℤ × ℤ := offsets.getD k (0, 0)

/-- A dense 2D integer array (numpy `ndarray` of shape `(rows, cols)`). -/
structure Grid where
  rows : ℕ
  cols : ℕ
  data : ℕ → ℕ → ℤ

/-- Build a grid from a row-major list of rows. -/
def Grid.ofList (l : List (List ℤ)) : Grid :=
  ⟨l.length, (l.headD []).length, fun r c => ((l.getD r []).getD c 0)⟩

/-- `0 <= r < rows and 0 <= c < cols`: the bounds test the source performs
before any neighbour access. -/
def Grid.inb (g : Grid) (r c : ℤ) : Prop :=
  0 ≤ r ∧ r < (g.rows : ℤ) ∧ 0 ≤ c ∧ c < (g.cols : ℤ)

instance (g : Grid) (r c : ℤ) : Decidable (g.inb r c) := by
  unfold Grid.inb; infer_instance

/-- The binary upstream-area array: shape plus the set of cells holding 1. -/
structure Mask where
  rows : ℕ
  cols : ℕ
  cells : Finset (ℕ × ℕ)
deriving DecidableEq

/-- Read a mask cell as the 0/1 integer the source arrays hold. -/
def Mask.get (m : Mask) (r c : ℕ) : ℤ :=
  if (r, c) ∈ m.cells then 1 else 0

/-- The neighbour test both traversals perform for direction index `k`
from cell `(r, c)`: the neighbour `(r, c) + offsets[k]` is inside the
grid and its raw direction value satisfies
`(drainage_direction[next_r, next_c] - 1) % 8 == (7 + direction - 4) % 8`,
i.e. the neighbour drains into `(r, c)`. -/
def drainsInto (g : Grid) (r c : ℤ) (k : ℕ) : Prop :=
  g.inb (r + (off k).1) (c + (off k).2) ∧
    (g.data (r + (off k).1).toNat (c + (off k).2).toNat - 1) % 8 = (7 + (k : ℤ) - 4) % 8

instance (g : Grid) (r c : ℤ) (k : ℕ) : Decidable (drainsInto g r c k) := by
  unfold drainsInto; infer_instance

/-- The in-bounds cell reached from cell `x` by direction index `k`. -/
def nbrCell (x : ℕ × ℕ) (k : ℕ) : ℕ × ℕ :=
  (((x.1 : ℤ) + (off k).1).toNat, ((x.2 : ℤ) + (off k).2).toNat)

/-- One upstream edge of the drainage graph implied by the grid:
`y` drains into `x` (so the trace walks from `x` to `y`). -/
def upEdge (g : Grid) (x y : ℕ × ℕ) : Prop :=
  ∃ k, k < 8 ∧ drainsInto g (x.1 : ℤ) (x.2 : ℤ) k ∧ y = nbrCell x k

/-- The set of cells of the grid, as a finset. -/
def Grid.allCells (g : Grid) : Finset (ℕ × ℕ) :=
  Finset.range g.rows ×ˢ Finset.range g.cols

/-- numpy array indexing for one axis: an index in `[0, n)` is itself, an
index in `[-n, 0)` wraps to `i + n`, anything else raises `IndexError`. -/
def wrapIdx (i : ℤ) (n : ℕ) : Option ℕ :=
  if 0 ≤ i ∧ i < (n : ℤ) then some i.toNat
  else if -(n : ℤ) ≤ i ∧ i < 0 then some (i + n).toNat
  else none

/-! ### `calculate_upstream_v2` (src/delineator.py, lines 122-180)

The iterative stack-based trace.  The source pops `(r, c)` off the end of
the Python list, then for each `direction in range(8)` marks and pushes
every in-bounds neighbour that drains into `(r, c)` — with no check
whether the neighbour is already marked.  The list head plays the role of
the Python list end (LIFO either way); pushes of one iteration are consed
in direction order, so direction 7's push is popped first, exactly like
the source's `append`/`pop()` pair. -/

/-- The inner `for direction in range(8)` body of `calculate_upstream_v2`:
starting from `(mask, stack)`, mark and push each qualifying neighbour of
`(r, c)` for the direction indices in `ks`. -/
def pushNbrs (g : Grid) (r c : ℤ) (ks : List ℕ) (s : Finset (ℕ × ℕ) × List (ℤ × ℤ)) :
    Finset (ℕ × ℕ) × List (ℤ × ℤ) :=
  match ks with
  | [] => s
  | k :: ks' =>
      pushNbrs g r c ks'
        (if drainsInto g r c k then
          (insert ((r + (off k).1).toNat, (c + (off k).2).toNat) s.1,
            (r + (off k).1, c + (off k).2) :: s.2)
         else s)

/-- The `while stack:` loop of `calculate_upstream_v2`, with explicit fuel:
`none` means the loop has not emptied the stack within `f` iterations
(the source has no other exit, so an input on which every fuel returns
`none` makes the source loop forever). -/
def v2Loop (f : ℕ) (g : Grid) (mask : Finset (ℕ × ℕ)) (stack : List (ℤ × ℤ)) :
    Option (Finset (ℕ × ℕ)) :=
  match f with
  | 0 => none
  | f' + 1 =>
    match stack with
    | [] => some mask
    | (r, c) :: rest =>
        let s := pushNbrs g r c (List.range 8) (mask, rest)
        v2Loop f' g s.1 s.2

/-- `calculate_upstream_v2`: allocate `zeros_like`, write
`upstream_area[row, col] = 1` (numpy wrap-around indexing; an index
outside the wrap range is an invalid access, modelled as `Except.error`),
seed the stack with the raw `(row, col)` pair, and run the loop.
`Except.ok none` means the loop was still running after `f` iterations. -/
def calculate_upstream_v2F (f : ℕ) (g : Grid) (p : ℤ × ℤ) : Except Unit (Option Mask) :=
  match wrapIdx p.1 g.rows, wrapIdx p.2 g.cols with
  | some r0, some c0 =>
      .ok ((v2Loop f g {(r0, c0)} [p]).map fun s => ⟨g.rows, g.cols, s⟩)
  | _, _ => .error ()

/-! ### `calculate_upstream_v1` (src/delineator.py, lines 58-120)

The recursive trace.  `traverse_upstream(r, c)` returns at once if
`(r, c)` is out of bounds or already marked, otherwise marks it and
recurses into every in-bounds neighbour that drains into it.  The shared
`upstream_area` array is threaded as a visited finset; the recursion is
embedded with fuel (the visited guard makes a depth of `rows*cols + 1`
always sufficient, which is proved below and used by the wrapper). -/

/-- The `for direction in range(8)` loop of `traverse_upstream`, with the
recursive call abstracted as `step` (the body recurses into each in-bounds
neighbour that drains into `(r, c)`, threading the visited set). -/
def traverseDirs (step : Finset (ℕ × ℕ) → ℤ → ℤ → Finset (ℕ × ℕ)) (g : Grid) (r c : ℤ) :
    List ℕ → Finset (ℕ × ℕ) → Finset (ℕ × ℕ)
  | [], V => V
  | k :: ks, V =>
      traverseDirs step g r c ks
        (if drainsInto g r c k then step V (r + (off k).1) (c + (off k).2) else V)

/-- `traverse_upstream(r, c)` with visited set `V` and fuel `f`: return at
once when `(r, c)` is out of bounds or already marked, otherwise mark it
and walk the 8 directions. -/
def traverseF (f : ℕ) (g : Grid) (V : Finset (ℕ × ℕ)) (r c : ℤ) : Finset (ℕ × ℕ) :=
  match f with
  | 0 => V
  | f' + 1 =>
    if ¬ g.inb r c then V
    else if (r.toNat, c.toNat) ∈ V then V
    else traverseDirs (fun W r' c' => traverseF f' g W r' c') g r c (List.range 8)
      (insert (r.toNat, c.toNat) V)

/-- `calculate_upstream_v1`: run the recursion from the pour point on an
all-zeros visited array and return the marked set (`astype(int)` keeps
the same 0/1 cells).  The fuel `rows*cols + 1` is sufficient (proved
below); the source's recursion depth is bounded the same way by the
visited guard. -/
def calculate_upstream_v1 (g : Grid) (p : ℤ × ℤ) : Mask :=
  ⟨g.rows, g.cols, traverseF (g.rows * g.cols + 1) g ∅ p.1 p.2⟩

/-! ### Direction codec

The repository dispatches on `direction_type` between
`calculate_upstream_arcgis` and `calculate_upstream_grass`
(src/processing.py, lines 222-226), but only the `v1`/`v2` trace bodies
are present in src/delineator.py.  The decoding the present trace applies
is fixed by its neighbour condition: a raw value `v` is treated as the
direction with offset `offsets[v % 8]` (see `drainsInto`), which on the
legal raw set {1..8} is the GRASS ordinal scheme NE,N,NW,W,SW,S,SE,E.
The ArcGIS power-of-two scheme and both re-encoders are absent from src/
and are modelled from the spec. -/

/-- The eight canonical compass directions, indexed like `offsets`:
E, NE, N, NW, W, SW, S, SE. -/
inductive DirectionCode
  | E | NE | N | NW | W | SW | S | SE
deriving DecidableEq, Fintype

/-- Direction of offset index `k % 8` in the `offsets` table. -/
def dirOfIndex (k : ℕ) : DirectionCode :=
  match k % 8 with
  | 0 => .E | 1 => .NE | 2 => .N | 3 => .NW | 4 => .W | 5 => .SW | 6 => .S | _ => .SE

/-- Offset-table index of a direction. -/
def dirIndex : DirectionCode → ℕ
  | .E => 0 | .NE => 1 | .N => 2 | .NW => 3 | .W => 4 | .SW => 5 | .S => 6 | .SE => 7

/-- GRASS decoding as implemented by the trace's neighbour condition:
legal raw values are the ordinals 1..8, and raw value `v` denotes the
direction with offset `offsets[v % 8]` (so 1 ↦ NE, …, 6 ↦ S, 8 ↦ E). -/
def direction_of_grass (v : ℤ) : Option DirectionCode :=
  if 1 ≤ v ∧ v ≤ 8 then some (dirOfIndex (v % 8).toNat) else none

/-- Modelled from the spec: the "arcgis" decoding (`calculate_upstream_arcgis`
is imported by src/processing.py but missing from src/delineator.py).
Spec §3/§4.1: powers of two 1,2,4,8,16,32,64,128 for E…SE in canonical
enum order; any other value is invalid. -/
def direction_of_arcgis (v : ℤ) : Option DirectionCode :=
  if v = 1 then some .E
  else if v = 2 then some .NE
  else if v = 4 then some .N
  else if v = 8 then some .NW
  else if v = 16 then some .W
  else if v = 32 then some .SW
  else if v = 64 then some .S
  else if v = 128 then some .SE
  else none

/-- Modelled from the spec: re-encoding a direction under the GRASS
scheme (the inverse of `direction_of_grass` on legal values). -/
def grassEncode : DirectionCode → ℤ
  | .NE => 1 | .N => 2 | .NW => 3 | .W => 4 | .SW => 5 | .S => 6 | .SE => 7 | .E => 8

/-- Modelled from the spec: re-encoding a direction under the ArcGIS
power-of-two scheme (the inverse of `direction_of_arcgis`). -/
def arcgisEncode : DirectionCode → ℤ
  | .E => 1 | .NE => 2 | .N => 4 | .NW => 8 | .W => 16 | .SW => 32 | .S => 64 | .SE => 128

/-- The legal raw values of the GRASS scheme. -/
def grassLegal : List ℤ := [1, 2, 3, 4, 5, 6, 7, 8]

/-- The legal raw direction values of the ArcGIS scheme. -/
def arcgisLegal : List ℤ := [1, 2, 4, 8, 16, 32, 64, 128]

/-! ### Pour-point snapping (src/snap_pour_point.py)

`resample_matrix` builds the search window as
`[[x+i, y+j] for j in range(-n, n+1) for i in range(-n, n+1)]` — the
OUTER loop ranges over the column offset `j` and the INNER loop over the
row offset `i`, so the generation order is column-major (row index varies
fastest).  `calculate_new_pour_point` then reads
`data_matrix[search_rows, search_cols]` (numpy fancy indexing: negative
indices wrap, indices ≥ shape raise `IndexError`), takes `temp.argmax()`
(first maximum in generation order) and returns the corresponding raw
`(row, col)` pair — which may be negative.  The embedding stops at the
selected `(row, col)` cell; the subsequent conversion to geographic x/y
is float arithmetic on externals and is not modelled. -/

/-- `range(-n, n+1)` as a list of integers. -/
def offsetsRange (n : ℕ) : List ℤ :=
  (List.range (2 * n + 1)).map fun t : ℕ => (t : ℤ) - (n : ℤ)

/-- `resample_matrix` (src/snap_pour_point.py, lines 44-61): the window
index pairs in source generation order (outer `j`, inner `i`). -/
def resample_matrix (x y : ℤ) (n : ℕ) : List (ℤ × ℤ) :=
  (offsetsRange n).flatMap fun j => (offsetsRange n).map fun i => (x + i, y + j)

/-- Modelled from the spec: the same window in row-major generation order
(outer loop over the row offset, inner over the column offset), the order
the spec's tie-break clause prescribes. -/
def resample_matrix_rowMajor (x y : ℤ) (n : ℕ) : List (ℤ × ℤ) :=
  (offsetsRange n).flatMap fun i => (offsetsRange n).map fun j => (x + i, y + j)

/-- Read one cell with numpy index semantics (wrap negative, error past
the end). -/
def readWrap (g : Grid) (p : ℤ × ℤ) : Option ℤ := do
  let r ← wrapIdx p.1 g.rows
  let c ← wrapIdx p.2 g.cols
  pure (g.data r c)

/-- numpy fancy indexing `data_matrix[search_rows, search_cols]`: all the
requested cells, or `IndexError` if any index is outside the wrap range. -/
def fancyRead (g : Grid) (ps : List (ℤ × ℤ)) : Option (List ℤ) :=
  ps.mapM (readWrap g)

/-- Helper for `argmaxFirst`: best index/value so far, next index, rest. -/
def argmaxAux (bi : ℕ) (bv : ℤ) (i : ℕ) : List ℤ → ℕ
  | [] => bi
  | v :: rest => if bv < v then argmaxAux i v (i + 1) rest else argmaxAux bi bv (i + 1) rest

/-- numpy `argmax`: index of the first occurrence of the maximum
(0 on the empty list, where numpy would raise). -/
def argmaxFirst : List ℤ → ℕ
  | [] => 0
  | v :: rest => argmaxAux 0 v 1 rest

/-- The cell-selection core of `calculate_new_pour_point`
(src/snap_pour_point.py, lines 87-96): fancy-read the window, `argmax`,
and return the selected raw `(row, col)` pair. -/
def calculate_new_pour_point_rc (g : Grid) (row col : ℤ) (n : ℕ) : Option (ℤ × ℤ) :=
  match fancyRead g (resample_matrix row col n) with
  | none => none
  | some vals => (resample_matrix row col n).get? (argmaxFirst vals)

/-- Modelled from the spec: the selection §4.2 describes — consider only
window cells inside the grid, in row-major generation order, and take the
first cell attaining the maximum accumulation (`none` when no window cell
is in bounds). -/
def snapSelect_rowMajor (g : Grid) (row col : ℤ) (n : ℕ) : Option (ℤ × ℤ) :=
  let w := (resample_matrix_rowMajor row col n).filter fun p => decide (g.inb p.1 p.2)
  match w with
  | [] => none
  | _ :: _ =>
      let vals := w.map fun p => g.data p.1.toNat p.2.toNat
      w.get? (argmaxFirst vals)

/-! ### Batch orchestration (src/processing.py, lines 189-280)

`process_watershed_points` iterates `for _, row in points.iterrows():`
with NO try/except anywhere in the loop body; the body per point (snap,
trace, rasterize, polygonize, clip, record) is abstracted as `procOne`
since the claim under test concerns only the control flow.  In Python an
exception raised by the body propagates out of the loop, so the embedding
sequences the points in the `Except` monad. -/

/-- The per-point loop of `process_watershed_points`: process points in
order; a failure on one point propagates immediately (no per-point
catch), discarding the remaining points. -/
def process_watershed_points {P R E : Type} (procOne : P → Except E R) :
    List P → Except E (List R)
  | [] => .ok []
  | p :: ps =>
    match procOne p with
    | .error e => .error e
    | .ok r =>
      match process_watershed_points procOne ps with
      | .error e => .error e
      | .ok rs => .ok (r :: rs)

/-! ### Polygonization (src/polygonize.py, lines 60-121)

`raster_to_polygon` consumes the `(shape, value)` pairs produced by the
external `rasterio.features.shapes` iterator, keeps the shapes whose
value is 1, raises `ValueError` when none remain, and otherwise uses
`polygons[0]` — the FIRST shape in iterator order — ignoring all others
with no warning.  A shape is abstracted to its cell count (the measure
the claim's "largest" refers to). -/

/-- A polygon shape abstracted to its cell count. -/
structure Shape where
  cellCount : ℕ
deriving DecidableEq

/-- The shape-selection core of `raster_to_polygon`: filter the iterator
output to the value-1 shapes; error (`ValueError`) when there are none,
otherwise return `polygons[0]`. -/
def raster_to_polygon (shapesIter : List (Shape × ℤ)) : Except Unit Shape :=
  match (shapesIter.filter fun sv => sv.2 == 1).map Prod.fst with
  | [] => .error ()
  | s :: _ => .ok s

/-! ### Decidable equality for `Except` results. -/

instance {ε α : Type} [DecidableEq ε] [DecidableEq α] : DecidableEq (Except ε α) := fun a b =>
  match a, b with
  | .ok x, .ok y => if h : x = y then .isTrue (by rw [h]) else .isFalse (by simp [h])
  | .error x, .error y => if h : x = y then .isTrue (by rw [h]) else .isFalse (by simp [h])
  | .ok _, .error _ => .isFalse (by simp)
  | .error _, .ok _ => .isFalse (by simp)

/-! ### Concrete inputs used by the claims. -/

/-- A 1×2 direction grid whose two cells point at each other under the
trace's decoding: cell (0,0) holds 8 (E) and cell (0,1) holds 4 (W). -/
def gCycle : Grid := Grid.ofList [[8, 4]]

/-- Scenario A's 5×5 grid: every cell's direction code points due south
(GRASS code 6, the decoding the trace implements); row 0 pointing south
is exactly "row 0 points into row 1". -/
def gScenarioA : Grid :=
  Grid.ofList [[6, 6, 6, 6, 6], [6, 6, 6, 6, 6], [6, 6, 6, 6, 6], [6, 6, 6, 6, 6], [6, 6, 6, 6, 6]]

/-- A 2×2 all-zero direction grid. -/
def gZeros2 : Grid := Grid.ofList [[0, 0], [0, 0]]

/-- A 1×1 zero direction grid. -/
def gOne : Grid := Grid.ofList [[0]]

/-- A 3×3 accumulation grid whose only nonzero cell is the bottom-right
corner — the cell a wrapped negative index reads. -/
def gWrapSnap : Grid := Grid.ofList [[0, 0, 0], [0, 0, 0], [0, 0, 9]]

/-- A 3×3 accumulation grid with a tie for the maximum between cell
(0,1) (first in row-major order) and cell (1,0) (first in the source's
column-major generation order). -/
def gTie : Grid := Grid.ofList [[0, 5, 0], [5, 0, 0], [0, 0, 0]]

/-- Scenario D's 3×3 accumulation window: values 1..9 in row-major order. -/
def gRowMajor19 : Grid := Grid.ofList [[1, 2, 3], [4, 5, 6], [7, 8, 9]]

/-! ### Definitions supporting the v1/v2 equivalence proof -/

/-- Number of grid cells not yet visited: the measure that shrinks when
the recursive trace marks a new cell. -/
def uvCount (g : Grid) (V : Finset (ℕ × ℕ)) : ℕ := (g.allCells \ V).card

/-- Termination measure for the iterative trace's stack under a rank
function that decreases along upstream edges: pops remove `9 ^ rank` and
push at most eight entries of strictly smaller rank. -/
def stackMeasure (rk : ℕ × ℕ → ℕ) (stack : List (ℤ × ℤ)) : ℕ :=
  (stack.map fun q => 9 ^ rk (q.1.toNat, q.2.toNat)).sum

/-- Invariant of the `calculate_upstream_v2` loop, relative to the pour
cell `p0`: the pour cell is marked; every marked cell is reachable from
`p0` along upstream edges; stack entries are in bounds and marked; and a
marked cell is either still pending on the stack or already closed under
upstream edges. -/
def V2Inv (g : Grid) (p0 : ℕ × ℕ) (mask : Finset (ℕ × ℕ)) (stack : List (ℤ × ℤ)) : Prop :=
  p0 ∈ mask ∧
  (∀ y ∈ mask, Relation.ReflTransGen (upEdge g) p0 y) ∧
  (∀ q ∈ stack, g.inb q.1 q.2 ∧ (q.1.toNat, q.2.toNat) ∈ mask) ∧
  (∀ y ∈ mask, (∃ q ∈ stack, (q.1.toNat, q.2.toNat) = y) ∨
    (∀ k, k < 8 → drainsInto g (y.1 : ℤ) (y.2 : ℤ) k → nbrCell y k ∈ mask))

/-! ## Theorems -/

/-! ### C1 — the iterative trace has no visited guard and need not terminate

On `gCycle` the two cells point at each other; after the first two
iterations the loop state repeats forever: popping `(0,1)` pushes
`(0,0)` and popping `(0,0)` pushes `(0,1)`, each time re-marking an
already-visited cell, because the source pushes a draining neighbour
without checking the visited marker. -/

/-- C1: the claim that `calculate_upstream_v2` always terminates with each
cell visited at most once under a visited guard fails: on the 1×2 grid
`[[8, 4]]` with pour cell `(0, 0)` the loop never empties its stack — for
every fuel the embedded loop is still running (`Except.ok none`). -/
theorem c1_v2_nonterminating :
    ∀ f : ℕ, calculate_upstream_v2F f gCycle (0, 0) = .ok none := by
  have key : ∀ f : ℕ,
      v2Loop f gCycle {(0, 0), (0, 1)} [((0 : ℤ), (1 : ℤ))] = none ∧
      v2Loop f gCycle {(0, 0), (0, 1)} [((0 : ℤ), (0 : ℤ))] = none := by
    intro f
    induction f with
    | zero => exact ⟨rfl, rfl⟩
    | succ f ih =>
      have h1 : pushNbrs gCycle 0 1 (List.range 8) ({(0, 0), (0, 1)}, []) =
          ({(0, 0), (0, 1)}, [((0 : ℤ), (0 : ℤ))]) := by decide
      have h2 : pushNbrs gCycle 0 0 (List.range 8) ({(0, 0), (0, 1)}, []) =
          ({(0, 0), (0, 1)}, [((0 : ℤ), (1 : ℤ))]) := by decide
      refine ⟨?_, ?_⟩
      · show v2Loop f gCycle (pushNbrs gCycle 0 1 (List.range 8) ({(0, 0), (0, 1)}, [])).1
          (pushNbrs gCycle 0 1 (List.range 8) ({(0, 0), (0, 1)}, [])).2 = none
        rw [h1]
        exact ih.2
      · show v2Loop f gCycle (pushNbrs gCycle 0 0 (List.range 8) ({(0, 0), (0, 1)}, [])).1
          (pushNbrs gCycle 0 0 (List.range 8) ({(0, 0), (0, 1)}, [])).2 = none
        rw [h2]
        exact ih.1
  intro f
  match f with
  | 0 => decide
  | f + 1 =>
    have h0 : pushNbrs gCycle 0 0 (List.range 8) ({(0, 0)}, []) =
        ({(0, 0), (0, 1)}, [((0 : ℤ), (1 : ℤ))]) := by decide
    show Except.ok ((v2Loop (f + 1) gCycle {(0, 0)} [((0 : ℤ), (0 : ℤ))]).map
      fun s => Mask.mk gCycle.rows gCycle.cols s) = .ok none
    have hstep : v2Loop (f + 1) gCycle {(0, 0)} [((0 : ℤ), (0 : ℤ))] =
        v2Loop f gCycle {(0, 0), (0, 1)} [((0 : ℤ), (1 : ℤ))] := by
      show v2Loop f gCycle (pushNbrs gCycle 0 0 (List.range 8) ({(0, 0)}, [])).1
        (pushNbrs gCycle 0 0 (List.range 8) ({(0, 0)}, [])).2 = _
      rw [h0]
    rw [hstep, (key f).1]
    rfl

/-! ### C3 — the direction codecs are bijections onto the same direction set -/

/-- C3: both decodings are bijections between their legal raw values and
the 8 compass directions: decode-then-re-encode is the identity on legal
values, encode-then-decode is the identity on directions, every direction
is hit by both schemes (the same canonical set), legality is exactly
decodability, and on legal values the GRASS decoding agrees with the
neighbour test the upstream trace performs (`(v - 1) % 8 == (7 + k - 4) % 8`
holds iff `v` decodes to the direction opposite to offset index `k`). -/
theorem c3_direction_codec_bijective :
    (∀ v ∈ grassLegal, (direction_of_grass v).map grassEncode = some v) ∧
    (∀ v ∈ arcgisLegal, (direction_of_arcgis v).map arcgisEncode = some v) ∧
    (∀ d : DirectionCode, direction_of_grass (grassEncode d) = some d) ∧
    (∀ d : DirectionCode, direction_of_arcgis (arcgisEncode d) = some d) ∧
    (∀ d : DirectionCode, (∃ v ∈ grassLegal, direction_of_grass v = some d) ∧
      ∃ v ∈ arcgisLegal, direction_of_arcgis v = some d) ∧
    (∀ v : ℤ, v ∈ grassLegal ↔ (direction_of_grass v).isSome) ∧
    (∀ v : ℤ, v ∈ arcgisLegal ↔ (direction_of_arcgis v).isSome) ∧
    (∀ v ∈ grassLegal, ∀ k ∈ List.range 8,
      ((v - 1) % 8 = (7 + (k : ℤ) - 4) % 8 ↔
        direction_of_grass v = some (dirOfIndex ((k + 4) % 8)))) := by
  refine ⟨by decide, by decide, by decide, by decide, by decide, ?_, ?_, by decide⟩
  · intro v
    constructor
    · intro hv
      have h18 : 1 ≤ v ∧ v ≤ 8 := by
        simp only [grassLegal, List.mem_cons, List.not_mem_nil, or_false] at hv
        omega
      simp [direction_of_grass, h18]
    · intro hs
      by_cases h18 : 1 ≤ v ∧ v ≤ 8
      · simp only [grassLegal, List.mem_cons, List.not_mem_nil, or_false]
        omega
      · simp [direction_of_grass, h18] at hs
  · intro v
    constructor
    · intro hv
      simp only [arcgisLegal, List.mem_cons, List.not_mem_nil, or_false] at hv
      rcases hv with h | h | h | h | h | h | h | h <;> subst h <;> decide
    · intro hs
      unfold direction_of_arcgis at hs
      split_ifs at hs with h1 h2 h3 h4 h5 h6 h7 h8
      · simp [arcgisLegal, h1]
      · simp [arcgisLegal, h2]
      · simp [arcgisLegal, h3]
      · simp [arcgisLegal, h4]
      · simp [arcgisLegal, h5]
      · simp [arcgisLegal, h6]
      · simp [arcgisLegal, h7]
      · simp [arcgisLegal, h8]
      · simp at hs

/-! ### C5 — the trace does not validate the pour cell -/

/-- C5 counterexample: the pour cell `(-1, 0)` is out of bounds on the 2×2
grid `gZeros2`, yet the trace silently returns a mask (numpy wrap-around
writes the 1 into row `rows - 1 = 1`) instead of failing with
`OutOfBounds`. -/
theorem c5_oob_pour_returns_mask :
    calculate_upstream_v2F 2 gZeros2 (-1, 0) = .ok (some ⟨2, 2, {(1, 0)}⟩) ∧
    ¬ gZeros2.inb (-1) 0 := by decide

/-- C5 amended: `calculate_upstream_v2` performs no bounds validation and
raises neither `OutOfBounds` nor `InvalidGrid`; its only failure is the
initial array write, which is an invalid access exactly when the pour
row or column falls outside numpy's wrap range `[-n, n)` — a pour cell
with negative in-wrap-range indices wraps to the opposite edge and a mask
is still produced. -/
theorem c5_amended_no_validation :
    ∀ (f : ℕ) (g : Grid) (p : ℤ × ℤ),
      calculate_upstream_v2F f g p = .error () ↔
        (wrapIdx p.1 g.rows = none ∨ wrapIdx p.2 g.cols = none) := by
  intro f g p
  unfold calculate_upstream_v2F
  rcases h1 : wrapIdx p.1 g.rows with _ | r0 <;>
    rcases h2 : wrapIdx p.2 g.cols with _ | c0 <;> simp

/-! ### C8 — Scenario A's straight-south 5×5 grid drains only column 2 -/

/-- C8 counterexample: tracing `gScenarioA` (every cell due south) from
`(4, 2)` returns a mask in which cell `(0, 0)` is NOT set, refuting the
claim that the whole grid is set: a cell of column 0 flows south down
column 0 and never reaches the pour cell. -/
theorem c8_not_entire_grid :
    calculate_upstream_v2F 100 gScenarioA (4, 2) =
      .ok (some ⟨5, 5, {(0, 2), (1, 2), (2, 2), (3, 2), (4, 2)}⟩) ∧
    Mask.get ⟨5, 5, {(0, 2), (1, 2), (2, 2), (3, 2), (4, 2)}⟩ 0 0 = 0 := by decide

/-- C8 amended: tracing the Scenario A grid from `(4, 2)` yields the
straight channel actually draining there — exactly the five cells of
column 2, not the entire grid. -/
theorem c8_trace_is_column_two :
    calculate_upstream_v2F 100 gScenarioA (4, 2) =
      .ok (some ⟨5, 5, {(0, 2), (1, 2), (2, 2), (3, 2), (4, 2)}⟩) := by decide

/-! ### C9 — polygonization picks the first shape, not the largest -/

/-- C9 counterexample: with two disjoint value-1 shapes of cell counts 1
and 5 in iterator order, `raster_to_polygon` returns the FIRST shape
(count 1), not the largest (count 5), refuting the largest-by-cell-count
claim. -/
theorem c9_returns_first_not_largest :
    raster_to_polygon [(⟨1⟩, 1), (⟨5⟩, 1)] = .ok ⟨1⟩ ∧
    ((⟨5⟩ : Shape), (1 : ℤ)) ∈ [((⟨1⟩ : Shape), (1 : ℤ)), (⟨5⟩, 1)] ∧
    (Shape.mk 1).cellCount < (Shape.mk 5).cellCount := by decide

/-- C9 amended: polygonization fails (`ValueError`) exactly when the mask
yields zero value-1 polygons; when at least one appears it returns the
first one in iterator order and silently discards the rest (no warning,
no size comparison). -/
theorem c9_amended_error_iff_empty_else_first :
    ∀ l : List (Shape × ℤ),
      (raster_to_polygon l = .error () ↔ (l.filter fun sv => sv.2 == 1) = []) ∧
      (∀ s rest, ((l.filter fun sv => sv.2 == 1).map Prod.fst) = s :: rest →
        raster_to_polygon l = .ok s) := by
  intro l
  constructor
  · unfold raster_to_polygon
    rcases h : (l.filter fun sv => sv.2 == 1).map Prod.fst with _ | ⟨s, rest⟩
    · simp only [List.map_eq_nil_iff] at h
      simp [h]
    · have : (l.filter fun sv => sv.2 == 1) ≠ [] := by
        intro hnil
        rw [hnil] at h
        simp at h
      rw [h]
      simp [this]
  · intro s rest h
    unfold raster_to_polygon
    rw [h]

/-- C9 amended witness: a singleton value-1 shape is returned as-is. -/
theorem c9_amended_witness :
    raster_to_polygon [(⟨2⟩, 1)] = .ok ⟨2⟩ :=
  (c9_amended_error_iff_empty_else_first [(⟨2⟩, 1)]).2 ⟨2⟩ [] (by decide)

/-! ### C2 — a per-point failure aborts the whole batch -/

/-- C2 counterexample: in a two-point batch whose first point fails (an
out-of-bounds pour point), the loop of `process_watershed_points`
propagates the exception: the batch returns the error and the sibling
point is never processed to a result — there is no per-point catch. -/
theorem c2_failure_aborts_batch :
    process_watershed_points
      (fun p : ℕ => if p = 0 then Except.error "OutOfBounds" else Except.ok p) [0, 1] =
      .error "OutOfBounds" := by rfl

/-- C2 amended: a failure on one point aborts processing of the remaining
points: if every point before `p` succeeds and `p` fails with `e`, the
whole batch call raises `e` and yields no per-point results at all. -/
theorem c2_amended_abort_on_first_failure :
    ∀ {P R E : Type} (procOne : P → Except E R) (pre : List P) (p : P) (post : List P) (e : E),
      (∀ q ∈ pre, (procOne q).isOk = true) →
      procOne p = .error e →
      process_watershed_points procOne (pre ++ p :: post) = .error e := by
  intro P R E procOne pre
  induction pre with
  | nil =>
    intro p post e _ hp
    show process_watershed_points procOne (p :: post) = .error e
    unfold process_watershed_points
    rw [hp]
  | cons q pre ih =>
    intro p post e hpre hp
    have hq : (procOne q).isOk = true := hpre q (by simp)
    rcases hok : procOne q with eq | r
    · rw [hok] at hq
      simp [Except.isOk, Except.toBool] at hq
    · show process_watershed_points procOne (q :: (pre ++ p :: post)) = .error e
      unfold process_watershed_points
      rw [hok, ih p post e (fun x hx => hpre x (by simp [hx])) hp]

/-- C2 amended witness: batch `[1, 0, 2]` with point 0 failing aborts
with point 0's error. -/
theorem c2_amended_abort_witness :
    process_watershed_points
      (fun p : ℕ => if p = 0 then Except.error "OutOfBounds" else Except.ok p)
      ([1] ++ 0 :: [2]) = .error "OutOfBounds" :=
  c2_amended_abort_on_first_failure _ [1] 0 [2] "OutOfBounds" (by decide) (by decide)

/-! ### Shared lemmas about `argmaxFirst`, `mapM` reads and `wrapIdx` -/

/-- Invariant of `argmaxAux`: if `bv` at index `bi` is the first maximum
of `seen`, the final result is the first maximum of `seen ++ rest`. -/
theorem argmaxAux_spec :
    ∀ (rest seen : List ℤ) (bi : ℕ) (bv : ℤ),
      seen.get? bi = some bv →
      (∀ u ∈ seen, u ≤ bv) →
      (∀ j < bi, ∀ u, seen.get? j = some u → u < bv) →
      ∃ v, (seen ++ rest).get? (argmaxAux bi bv seen.length rest) = some v ∧
        (∀ u ∈ seen ++ rest, u ≤ v) ∧
        (∀ j < argmaxAux bi bv seen.length rest, ∀ u, (seen ++ rest).get? j = some u → u < v) := by
  intro rest
  induction rest with
  | nil =>
    intro seen bi bv hget hmax hfirst
    refine ⟨bv, ?_, ?_, ?_⟩
    · simpa [argmaxAux] using hget
    · simpa using hmax
    · simpa [argmaxAux] using hfirst
  | cons v' rest ih =>
    intro seen bi bv hget hmax hfirst
    have hbi : bi < seen.length := (List.get?_eq_some.mp hget).1
    have hassoc : seen ++ v' :: rest = (seen ++ [v']) ++ rest := by simp
    have hlen : seen.length + 1 = (seen ++ [v']).length := by simp
    by_cases hlt : bv < v'
    · have spec := ih (seen ++ [v']) seen.length v'
        (by simp)
        (by
          intro u hu
          rcases List.mem_append.mp hu with hu | hu
          · exact le_of_lt (lt_of_le_of_lt (hmax u hu) hlt)
          · simp at hu
            omega)
        (by
          intro j hj u hu
          rw [List.get?_append hj] at hu
          exact lt_of_le_of_lt (hmax u (List.get?_mem hu)) hlt)
      have hstep : argmaxAux bi bv seen.length (v' :: rest) =
          argmaxAux seen.length v' (seen.length + 1) rest := by
        simp only [argmaxAux]
        rw [if_pos hlt]
      rw [hassoc, hstep, hlen]
      exact spec
    · have spec := ih (seen ++ [v']) bi bv
        (by rw [List.get?_append hbi]; exact hget)
        (by
          intro u hu
          rcases List.mem_append.mp hu with hu | hu
          · exact hmax u hu
          · simp at hu
            omega)
        (by
          intro j hj u hu
          rw [List.get?_append (lt_trans hj hbi)] at hu
          exact hfirst j hj u hu)
      have hstep : argmaxAux bi bv seen.length (v' :: rest) =
          argmaxAux bi bv (seen.length + 1) rest := by
        simp only [argmaxAux]
        rw [if_neg hlt]
      rw [hassoc, hstep, hlen]
      exact spec

/-- `argmaxFirst` on a nonempty list returns the index of the first
occurrence of the maximum. -/
theorem argmaxFirst_spec (l : List ℤ) (hl : l ≠ []) :
    ∃ v, l.get? (argmaxFirst l) = some v ∧
      (∀ u ∈ l, u ≤ v) ∧
      (∀ j < argmaxFirst l, ∀ u, l.get? j = some u → u < v) := by
  rcases l with _ | ⟨v0, rest⟩
  · exact absurd rfl hl
  · have spec := argmaxAux_spec rest [v0] 0 v0 (by simp) (by simp)
      (by intro j hj; exact absurd hj (Nat.not_lt_zero j))
    simpa [argmaxFirst] using spec

/-- An Option-`mapM` succeeds iff every element read succeeds. -/
theorem mapM_isSome_iff {α β : Type} (f : α → Option β) :
    ∀ ps : List α, (ps.mapM f).isSome ↔ ∀ p ∈ ps, (f p).isSome := by
  intro ps
  induction ps with
  | nil => exact ⟨fun _ p hp => absurd hp (List.not_mem_nil p), fun _ => rfl⟩
  | cons p ps ih =>
    rw [List.mapM_cons]
    rcases hp : f p with _ | b
    · simp [hp]
    · rcases hs : ps.mapM f with _ | l <;>
        simp_all [Option.bind_eq_bind]

/-- A successful Option-`mapM` preserves the length. -/
theorem mapM_length {α β : Type} (f : α → Option β) :
    ∀ (ps : List α) (l : List β), ps.mapM f = some l → l.length = ps.length := by
  intro ps
  induction ps with
  | nil =>
    intro l h
    simp only [List.mapM_nil, pure, Option.some.injEq] at h
    simp [← h]
  | cons p ps ih =>
    intro l h
    rw [List.mapM_cons] at h
    rcases hp : f p with _ | b
    · rw [hp] at h
      simp at h
    · rw [hp] at h
      rcases hs : ps.mapM f with _ | tl
      · rw [hs] at h
        simp [Option.bind_eq_bind] at h
      · rw [hs] at h
        simp only [Option.bind_eq_bind, Option.some_bind, pure, Option.some.injEq] at h
        subst h
        simp [ih tl hs]

/-- If every element reads to its in-bounds value, `mapM` is that map. -/
theorem mapM_eq_map {α β : Type} (f : α → Option β) (h : α → β) :
    ∀ ps : List α, (∀ p ∈ ps, f p = some (h p)) → ps.mapM f = some (ps.map h) := by
  intro ps
  induction ps with
  | nil => intro _; rfl
  | cons p ps ih =>
    intro hall
    rw [List.mapM_cons, hall p (by simp), ih (fun q hq => hall q (by simp [hq]))]
    rfl

/-- In-bounds indices do not wrap. -/
theorem wrapIdx_of_inb {i : ℤ} {n : ℕ} (h0 : 0 ≤ i) (h1 : i < (n : ℤ)) :
    wrapIdx i n = some i.toNat := by
  unfold wrapIdx
  rw [if_pos ⟨h0, h1⟩]

/-- Reading an in-bounds cell succeeds and yields the cell's value. -/
theorem readWrap_of_inb {g : Grid} {p : ℤ × ℤ} (h : g.inb p.1 p.2) :
    readWrap g p = some (g.data p.1.toNat p.2.toNat) := by
  obtain ⟨h0, h1, h2, h3⟩ := h
  unfold readWrap
  rw [wrapIdx_of_inb h0 h1, wrapIdx_of_inb h2 h3]
  rfl

/-- The window always contains its top-left corner. -/
theorem resample_matrix_ne_nil (x y : ℤ) (n : ℕ) : resample_matrix x y n ≠ [] := by
  have hlen : (offsetsRange n).length = 2 * n + 1 := by
    unfold offsetsRange
    rw [List.length_map, List.length_range]
  rcases hl : offsetsRange n with _ | ⟨j, js⟩
  · rw [hl] at hlen
    simp at hlen
  · unfold resample_matrix
    rw [hl, List.flatMap_cons]
    simp

/-- Reduce the snap core once the fancy read is known. -/
theorem calcRC_eq_of_fancy {g : Grid} {x y : ℤ} {n : ℕ} {vals : List ℤ}
    (h : fancyRead g (resample_matrix x y n) = some vals) :
    calculate_new_pour_point_rc g x y n = (resample_matrix x y n).get? (argmaxFirst vals) := by
  unfold calculate_new_pour_point_rc
  rw [h]

/-- The snap core propagates an `IndexError` of the fancy read. -/
theorem calcRC_eq_none {g : Grid} {x y : ℤ} {n : ℕ}
    (h : fancyRead g (resample_matrix x y n) = none) :
    calculate_new_pour_point_rc g x y n = none := by
  unfold calculate_new_pour_point_rc
  rw [h]

/-! ### C6 — window cells outside the grid are wrapped, not excluded -/

/-- C6 counterexample: on the 3×3 grid `gWrapSnap` (only `(2,2)` holds a
nonzero accumulation), the radius-1 search around `(0, 0)` selects the
out-of-grid window cell `(-1, -1)` — its wrapped read hits `(2,2)`'s 9 —
so out-of-bounds window cells are read via wrap-around rather than
excluded; likewise a window lying entirely outside the grid (center
`(-2, -2)`) yields a successful selection instead of an `OutOfBounds`
failure. -/
theorem c6_wrap_not_excluded :
    calculate_new_pour_point_rc gWrapSnap 0 0 1 = some (-1, -1) ∧
    ¬ gWrapSnap.inb (-1) (-1) ∧
    (∀ p ∈ resample_matrix (-2) (-2) 1, ¬ gWrapSnap.inb p.1 p.2) ∧
    calculate_new_pour_point_rc gWrapSnap (-2) (-2) 1 = some (-1, -1) := by decide

/-- C6 amended: the pour-point search reads every window cell with numpy
index semantics — it succeeds exactly when every window index is inside
the wrap range (negative indices are read from the opposite edge, with no
exclusion of out-of-grid cells), fails by `IndexError` (not `OutOfBounds`)
otherwise, and the selected cell is always one of the raw window index
pairs, possibly outside the grid. -/
theorem c6_amended_wrap_semantics :
    ∀ (g : Grid) (x y : ℤ) (n : ℕ),
      ((calculate_new_pour_point_rc g x y n).isSome ↔
        ∀ p ∈ resample_matrix x y n, (readWrap g p).isSome) ∧
      (∀ rc, calculate_new_pour_point_rc g x y n = some rc →
        rc ∈ resample_matrix x y n) := by
  intro g x y n
  constructor
  · constructor
    · intro hs
      rcases h : fancyRead g (resample_matrix x y n) with _ | vals
      · rw [calcRC_eq_none h] at hs
        simp at hs
      · have hm : (resample_matrix x y n).mapM (readWrap g) = some vals := h
        exact (mapM_isSome_iff (readWrap g) (resample_matrix x y n)).mp (by rw [hm]; rfl)
    · intro hall
      have hs : ((resample_matrix x y n).mapM (readWrap g)).isSome :=
        (mapM_isSome_iff (readWrap g) (resample_matrix x y n)).mpr hall
      rcases h : fancyRead g (resample_matrix x y n) with _ | vals
      · have hm : (resample_matrix x y n).mapM (readWrap g) = none := h
        rw [hm] at hs
        simp at hs
      · have hlen : vals.length = (resample_matrix x y n).length :=
          mapM_length (readWrap g) _ vals h
        have hne : vals ≠ [] := by
          intro hnil
          apply resample_matrix_ne_nil x y n
          rw [hnil] at hlen
          exact List.length_eq_zero.mp hlen.symm
        obtain ⟨v, hv, -, -⟩ := argmaxFirst_spec vals hne
        have hidx : argmaxFirst vals < (resample_matrix x y n).length := by
          rw [← hlen]
          exact (List.get?_eq_some.mp hv).1
        rw [calcRC_eq_of_fancy h, List.get?_eq_get hidx]
        rfl
  · intro rc hrc
    rcases h : fancyRead g (resample_matrix x y n) with _ | vals
    · rw [calcRC_eq_none h] at hrc
      simp at hrc
    · rw [calcRC_eq_of_fancy h] at hrc
      exact List.get?_mem hrc

/-! ### Shared lemmas about the iterative trace's state -/

/-- The direction sweep never unmarks a cell. -/
theorem pushNbrs_mask_mono (g : Grid) (r c : ℤ) :
    ∀ (ks : List ℕ) (s : Finset (ℕ × ℕ) × List (ℤ × ℤ)),
      s.1 ⊆ (pushNbrs g r c ks s).1 := by
  intro ks
  induction ks with
  | nil => intro s; exact Finset.Subset.refl _
  | cons k ks ih =>
    intro s
    show s.1 ⊆ (pushNbrs g r c ks _).1
    by_cases h : drainsInto g r c k
    · rw [if_pos h]
      exact Finset.Subset.trans (Finset.subset_insert _ _)
        (ih (insert ((r + (off k).1).toNat, (c + (off k).2).toNat) s.1,
          (r + (off k).1, c + (off k).2) :: s.2))
    · rw [if_neg h]
      exact ih s

/-- The loop never unmarks a cell. -/
theorem v2Loop_mask_mono (g : Grid) :
    ∀ (f : ℕ) (mask : Finset (ℕ × ℕ)) (stack : List (ℤ × ℤ)) (m : Finset (ℕ × ℕ)),
      v2Loop f g mask stack = some m → mask ⊆ m := by
  intro f
  induction f with
  | zero => intro mask stack m h; exact absurd h (by simp [v2Loop])
  | succ f ih =>
    intro mask stack m h
    match stack with
    | [] =>
      have : mask = m := by
        simpa [v2Loop] using h
      rw [this]
    | (r, c) :: rest =>
      have hstep : v2Loop f g (pushNbrs g r c (List.range 8) (mask, rest)).1
          (pushNbrs g r c (List.range 8) (mask, rest)).2 = some m := h
      exact Finset.Subset.trans (pushNbrs_mask_mono g r c (List.range 8) (mask, rest))
        (ih _ _ m hstep)

/-! ### C4 — shape preservation and the pour cell is always set -/

/-- C4: for an in-bounds pour cell, whenever the iterative trace returns a
mask, that mask has exactly the shape of the input direction grid
(`zeros_like`) and the pour cell itself is marked (it is set before the
loop and never unset). -/
theorem c4_shape_and_pour_cell :
    ∀ (f : ℕ) (g : Grid) (p : ℤ × ℤ) (m : Mask),
      g.inb p.1 p.2 →
      calculate_upstream_v2F f g p = .ok (some m) →
      m.rows = g.rows ∧ m.cols = g.cols ∧ m.get p.1.toNat p.2.toNat = 1 := by
  intro f g p m hin hrun
  obtain ⟨h0, h1, h2, h3⟩ := hin
  have hw1 : wrapIdx p.1 g.rows = some p.1.toNat := wrapIdx_of_inb h0 h1
  have hw2 : wrapIdx p.2 g.cols = some p.2.toNat := wrapIdx_of_inb h2 h3
  have hmap : (v2Loop f g {(p.1.toNat, p.2.toNat)} [p]).map
      (fun s => Mask.mk g.rows g.cols s) = some m := by
    have h := hrun
    unfold calculate_upstream_v2F at h
    rw [hw1, hw2] at h
    exact Except.ok.inj h
  rcases hloop : v2Loop f g {(p.1.toNat, p.2.toNat)} [p] with _ | s
  · rw [hloop] at hmap
    exact Option.noConfusion hmap
  · rw [hloop] at hmap
    have hmap : Mask.mk g.rows g.cols s = m := Option.some.inj hmap
    have hsub : {(p.1.toNat, p.2.toNat)} ⊆ s := v2Loop_mask_mono g f _ _ s hloop
    have hmem : (p.1.toNat, p.2.toNat) ∈ s := hsub (Finset.mem_singleton_self _)
    rw [← hmap]
    exact ⟨rfl, rfl, by simp [Mask.get, hmem]⟩

/-- C4 witness: the 1×1 grid with pour cell (0,0). -/
theorem c4_shape_and_pour_cell_witness :
    (Mask.mk 1 1 {(0, 0)}).rows = gOne.rows ∧ (Mask.mk 1 1 {(0, 0)}).cols = gOne.cols ∧
    (Mask.mk 1 1 {(0, 0)}).get (0 : ℤ).toNat (0 : ℤ).toNat = 1 :=
  c4_shape_and_pour_cell 2 gOne (0, 0) ⟨1, 1, {(0, 0)}⟩ (by decide) (by decide)

/-- C6 amended witness: the radius-0 window around `(0,0)` on the 1×1
grid selects `(0,0)`, a member of the window. -/
theorem c6_amended_wrap_witness : ((0 : ℤ), (0 : ℤ)) ∈ resample_matrix 0 0 0 :=
  (c6_amended_wrap_semantics gOne 0 0 0).2 (0, 0) (by decide)

/-! ### C7 — maximum selection with column-major, not row-major, tie-break -/

/-- C7 counterexample: on the tied window `gTie` the source selects the
cell `(1, 0)` (first maximum in its column-major generation order), while
the claimed row-major tie-break (embodied by the spec-modelled
`snapSelect_rowMajor`) selects `(0, 1)`. -/
theorem c7_tiebreak_not_rowmajor :
    calculate_new_pour_point_rc gTie 1 1 1 = some (1, 0) ∧
    snapSelect_rowMajor gTie 1 1 1 = some (0, 1) ∧
    ((1, 0) : ℤ × ℤ) ≠ (0, 1) := by decide

/-- C7 amended: for a window fully inside the grid, the snap selects a
window cell attaining the maximum accumulation, and ties are broken by
the first cell in the source's column-major window-generation order (the
row offset varies fastest); Scenario D's 3×3 window holding 1..9 in
row-major order still selects the cell holding 9. -/
theorem c7_amended_max_selection :
    (∀ (g : Grid) (x y : ℤ) (n : ℕ) (rc : ℤ × ℤ),
      (∀ p ∈ resample_matrix x y n, g.inb p.1 p.2) →
      calculate_new_pour_point_rc g x y n = some rc →
      rc ∈ resample_matrix x y n ∧
      (∀ p ∈ resample_matrix x y n,
        g.data p.1.toNat p.2.toNat ≤ g.data rc.1.toNat rc.2.toNat) ∧
      ∃ i, (resample_matrix x y n).get? i = some rc ∧
        ∀ j < i, ∀ p, (resample_matrix x y n).get? j = some p →
          g.data p.1.toNat p.2.toNat < g.data rc.1.toNat rc.2.toNat) ∧
    calculate_new_pour_point_rc gRowMajor19 1 1 1 = some (2, 2) ∧
    gRowMajor19.data 2 2 = 9 := by
  refine ⟨?_, by decide, by decide⟩
  intro g x y n rc hin hrc
  have hread : fancyRead g (resample_matrix x y n) =
      some ((resample_matrix x y n).map fun p => g.data p.1.toNat p.2.toNat) :=
    mapM_eq_map (readWrap g) _ _ (fun p hp => readWrap_of_inb (hin p hp))
  rw [calcRC_eq_of_fancy hread] at hrc
  set w := resample_matrix x y n with hw
  set vals := w.map fun p => g.data p.1.toNat p.2.toNat with hvals
  have hne : vals ≠ [] := by
    intro hnil
    exact resample_matrix_ne_nil x y n (by simpa using List.map_eq_nil_iff.mp (hvals ▸ hnil))
  obtain ⟨v, hv, hmax, hfirst⟩ := argmaxFirst_spec vals hne
  have hvrc : vals.get? (argmaxFirst vals) = some (g.data rc.1.toNat rc.2.toNat) := by
    rw [hvals, List.get?_map, hrc]
    rfl
  have hveq : v = g.data rc.1.toNat rc.2.toNat := by
    rw [hv] at hvrc
    exact Option.some.inj hvrc
  subst hveq
  refine ⟨List.get?_mem hrc, ?_, argmaxFirst vals, hrc, ?_⟩
  · intro p hp
    exact hmax _ (List.mem_map.mpr ⟨p, hp, rfl⟩)
  · intro j hj p hp
    exact hfirst j hj _ (by rw [hvals, List.get?_map, hp]; rfl)

/-! ### C10 groundwork, part 1: monotonicity of the recursive trace and
counting lemmas -/

/-- The direction sweep of the recursive trace never unmarks a cell. -/
theorem traverseDirs_mono (step : Finset (ℕ × ℕ) → ℤ → ℤ → Finset (ℕ × ℕ)) (g : Grid)
    (r c : ℤ) (hstep : ∀ W r' c', W ⊆ step W r' c') :
    ∀ (ks : List ℕ) (V : Finset (ℕ × ℕ)), V ⊆ traverseDirs step g r c ks V := by
  intro ks
  induction ks with
  | nil => intro V; exact Finset.Subset.refl _
  | cons k ks ih =>
    intro V
    show V ⊆ traverseDirs step g r c ks _
    by_cases h : drainsInto g r c k
    · rw [if_pos h]
      exact Finset.Subset.trans (hstep V _ _) (ih _)
    · rw [if_neg h]
      exact ih V

/-- The recursive trace never unmarks a cell. -/
theorem traverseF_mono (g : Grid) :
    ∀ (f : ℕ) (V : Finset (ℕ × ℕ)) (r c : ℤ), V ⊆ traverseF f g V r c := by
  intro f
  induction f with
  | zero => intro V r c; exact Finset.Subset.refl _
  | succ f ih =>
    intro V r c
    show V ⊆ traverseF (f + 1) g V r c
    rw [traverseF]
    by_cases h1 : ¬ g.inb r c
    · rw [if_pos h1]
    · rw [if_neg h1]
      by_cases h2 : (r.toNat, c.toNat) ∈ V
      · rw [if_pos h2]
      · rw [if_neg h2]
        exact Finset.Subset.trans (Finset.subset_insert _ _)
          (traverseDirs_mono _ g r c (fun W r' c' => ih W r' c') _ _)

/-- An in-bounds coordinate pair is a grid cell. -/
theorem mem_allCells_of_inb {g : Grid} {r c : ℤ} (h : g.inb r c) :
    (r.toNat, c.toNat) ∈ g.allCells := by
  obtain ⟨h0, h1, h2, h3⟩ := h
  refine Finset.mem_product.mpr ⟨Finset.mem_range.mpr ?_, Finset.mem_range.mpr ?_⟩
  · omega
  · omega

/-- Marking more cells leaves fewer unvisited. -/
theorem uvCount_le_of_subset (g : Grid) {V W : Finset (ℕ × ℕ)} (h : V ⊆ W) :
    uvCount g W ≤ uvCount g V :=
  Finset.card_le_card (Finset.sdiff_subset_sdiff (Finset.Subset.refl _) h)

/-- Marking a new grid cell strictly decreases the unvisited count. -/
theorem uvCount_insert_lt {g : Grid} {V : Finset (ℕ × ℕ)} {x : ℕ × ℕ}
    (hx : x ∈ g.allCells) (hnv : x ∉ V) :
    uvCount g (insert x V) < uvCount g V := by
  apply Finset.card_lt_card
  constructor
  · exact Finset.sdiff_subset_sdiff (Finset.Subset.refl _) (Finset.subset_insert _ _)
  · intro hsub
    have hmem : x ∈ g.allCells \ V := Finset.mem_sdiff.mpr ⟨hx, hnv⟩
    have := hsub hmem
    rw [Finset.mem_sdiff] at this
    exact this.2 (Finset.mem_insert_self _ _)

/-- With no visited cells, every grid cell is unvisited. -/
theorem uvCount_empty (g : Grid) : uvCount g ∅ = g.rows * g.cols := by
  unfold uvCount
  rw [Finset.sdiff_empty]
  unfold Grid.allCells
  rw [Finset.card_product, Finset.card_range, Finset.card_range]

/-- Transport the neighbour condition through `Int.toNat` round-trips at
an in-bounds coordinate. -/
theorem drainsInto_cast {g : Grid} {r c : ℤ} (h0 : 0 ≤ r) (h2 : 0 ≤ c) (k : ℕ) :
    drainsInto g ((r.toNat : ℕ) : ℤ) ((c.toNat : ℕ) : ℤ) k ↔ drainsInto g r c k := by
  rw [Int.toNat_of_nonneg h0, Int.toNat_of_nonneg h2]

/-- The neighbour cell computed from raw coordinates agrees with
`nbrCell` of the corresponding cell. -/
theorem nbrCell_cast {r c : ℤ} (h0 : 0 ≤ r) (h2 : 0 ≤ c) (k : ℕ) :
    nbrCell (r.toNat, c.toNat) k = ((r + (off k).1).toNat, (c + (off k).2).toNat) := by
  unfold nbrCell
  rw [Int.toNat_of_nonneg h0, Int.toNat_of_nonneg h2]

/-! ### C10 groundwork, part 2: soundness and coverage of the recursive
trace -/

/-- Everything the direction sweep adds is reachable through one of the
listed directions. -/
theorem traverseDirs_sound (step : Finset (ℕ × ℕ) → ℤ → ℤ → Finset (ℕ × ℕ)) (g : Grid)
    (r c : ℤ)
    (hstep : ∀ W r' c' y, y ∈ step W r' c' →
      y ∈ W ∨ (g.inb r' c' ∧ Relation.ReflTransGen (upEdge g) (r'.toNat, c'.toNat) y)) :
    ∀ (ks : List ℕ) (V : Finset (ℕ × ℕ)) (y : ℕ × ℕ),
      y ∈ traverseDirs step g r c ks V →
      y ∈ V ∨ ∃ k ∈ ks, drainsInto g r c k ∧
        Relation.ReflTransGen (upEdge g) ((r + (off k).1).toNat, (c + (off k).2).toNat) y := by
  intro ks
  induction ks with
  | nil => intro V y hy; exact Or.inl hy
  | cons k ks ih =>
    intro V y hy
    have hy' : y ∈ traverseDirs step g r c ks
        (if drainsInto g r c k then step V (r + (off k).1) (c + (off k).2) else V) := hy
    rcases ih _ y hy' with hW | ⟨k', hk', hd', hr'⟩
    · by_cases hd : drainsInto g r c k
      · rw [if_pos hd] at hW
        rcases hstep V _ _ y hW with hV | ⟨-, hr⟩
        · exact Or.inl hV
        · exact Or.inr ⟨k, List.mem_cons_self k ks, hd, hr⟩
      · rw [if_neg hd] at hW
        exact Or.inl hW
    · exact Or.inr ⟨k', List.mem_cons_of_mem k hk', hd', hr'⟩

/-- Everything the recursive trace adds to the visited set is reachable
from the cell it was called on. -/
theorem traverseF_sound (g : Grid) :
    ∀ (f : ℕ) (V : Finset (ℕ × ℕ)) (r c : ℤ) (y : ℕ × ℕ),
      y ∈ traverseF f g V r c →
      y ∈ V ∨ (g.inb r c ∧ Relation.ReflTransGen (upEdge g) (r.toNat, c.toNat) y) := by
  intro f
  induction f with
  | zero => intro V r c y hy; exact Or.inl hy
  | succ f ih =>
    intro V r c y hy
    rw [traverseF] at hy
    by_cases h1 : g.inb r c
    · rw [if_neg (not_not_intro h1)] at hy
      by_cases h2 : (r.toNat, c.toNat) ∈ V
      · rw [if_pos h2] at hy
        exact Or.inl hy
      · rw [if_neg h2] at hy
        obtain ⟨h0, hlt1, h2', hlt2⟩ := h1
        rcases traverseDirs_sound _ g r c (fun W r' c' z hz => ih W r' c' z hz)
            (List.range 8) _ y hy with hins | ⟨k, hk, hd, hr⟩
        · rcases Finset.mem_insert.mp hins with heq | hV
          · exact Or.inr ⟨⟨h0, hlt1, h2', hlt2⟩, heq ▸ Relation.ReflTransGen.refl⟩
          · exact Or.inl hV
        · refine Or.inr ⟨⟨h0, hlt1, h2', hlt2⟩, Relation.ReflTransGen.head ?_ hr⟩
          exact ⟨k, List.mem_range.mp hk, (drainsInto_cast h0 h2' k).mpr hd,
            (nbrCell_cast h0 h2' k).symm ▸ rfl⟩
    · rw [if_pos h1] at hy
      exact Or.inl hy

/-- With any fuel at all, the recursive trace marks the in-bounds cell it
is called on. -/
theorem traverseF_self_mem (g : Grid) :
    ∀ (f : ℕ), 1 ≤ f → ∀ (V : Finset (ℕ × ℕ)) (r c : ℤ), g.inb r c →
      (r.toNat, c.toNat) ∈ traverseF f g V r c := by
  intro f hf V r c hinb
  match f, hf with
  | f + 1, _ =>
    rw [traverseF, if_neg (not_not_intro hinb)]
    by_cases h2 : (r.toNat, c.toNat) ∈ V
    · rw [if_pos h2]
      exact h2
    · rw [if_neg h2]
      exact traverseDirs_mono _ g r c (fun W r' c' => traverseF_mono g f W r' c') _ _
        (Finset.mem_insert_self _ _)

/-- The direction sweep marks every listed draining neighbour. -/
theorem traverseDirs_covers (step : Finset (ℕ × ℕ) → ℤ → ℤ → Finset (ℕ × ℕ)) (g : Grid)
    (r c : ℤ)
    (hmono : ∀ W r' c', W ⊆ step W r' c')
    (hself : ∀ W r' c', g.inb r' c' → (r'.toNat, c'.toNat) ∈ step W r' c') :
    ∀ (ks : List ℕ) (V : Finset (ℕ × ℕ)) (k : ℕ), k ∈ ks → drainsInto g r c k →
      ((r + (off k).1).toNat, (c + (off k).2).toNat) ∈ traverseDirs step g r c ks V := by
  intro ks
  induction ks with
  | nil => intro V k hk; exact absurd hk (List.not_mem_nil k)
  | cons k0 ks ih =>
    intro V k hk hd
    rcases List.mem_cons.mp hk with heq | hmem
    · subst heq
      show _ ∈ traverseDirs step g r c ks _
      rw [if_pos hd]
      exact traverseDirs_mono step g r c hmono ks _ (hself V _ _ hd.1)
    · exact ih _ k hmem hd

/-! ### C10 groundwork, part 3: the recursive trace computes exactly the
reachable set -/

/-- Closure property of the direction sweep: a cell newly marked during
the sweep has all its draining neighbours marked by the end of the
sweep. -/
theorem traverseDirs_closed (g : Grid) (r c : ℤ) (f' : ℕ)
    (ihm : ∀ W r' c', W ⊆ traverseF f' g W r' c')
    (ihc : ∀ (W : Finset (ℕ × ℕ)) (r' c' : ℤ) (y : ℕ × ℕ), uvCount g W + 1 ≤ f' →
      y ∈ traverseF f' g W r' c' → y ∉ W →
      ∀ k, k < 8 → drainsInto g (y.1 : ℤ) (y.2 : ℤ) k → nbrCell y k ∈ traverseF f' g W r' c') :
    ∀ (ks : List ℕ) (W : Finset (ℕ × ℕ)), uvCount g W + 1 ≤ f' →
      ∀ y, y ∈ traverseDirs (fun A r' c' => traverseF f' g A r' c') g r c ks W → y ∉ W →
      ∀ k, k < 8 → drainsInto g (y.1 : ℤ) (y.2 : ℤ) k →
        nbrCell y k ∈ traverseDirs (fun A r' c' => traverseF f' g A r' c') g r c ks W := by
  intro ks
  induction ks with
  | nil => intro W hf y hy hyW; exact absurd hy hyW
  | cons k0 ks ih =>
    intro W hf y hy hyW k hk hd
    have hy2 : y ∈ traverseDirs (fun A r' c' => traverseF f' g A r' c') g r c ks
        (if drainsInto g r c k0 then
          traverseF f' g W (r + (off k0).1) (c + (off k0).2) else W) := hy
    show nbrCell y k ∈ traverseDirs (fun A r' c' => traverseF f' g A r' c') g r c ks
      (if drainsInto g r c k0 then
        traverseF f' g W (r + (off k0).1) (c + (off k0).2) else W)
    by_cases hc : drainsInto g r c k0
    · rw [if_pos hc] at hy2 ⊢
      by_cases hyW' : y ∈ traverseF f' g W (r + (off k0).1) (c + (off k0).2)
      · exact traverseDirs_mono _ g r c ihm ks _ (ihc W _ _ y hf hyW' hyW k hk hd)
      · have hfW' : uvCount g (traverseF f' g W (r + (off k0).1) (c + (off k0).2)) + 1 ≤ f' := by
          have := uvCount_le_of_subset g (ihm W (r + (off k0).1) (c + (off k0).2))
          omega
        exact ih _ hfW' y hy2 hyW' k hk hd
    · rw [if_neg hc] at hy2 ⊢
      exact ih W hf y hy2 hyW k hk hd

/-- Closure of the recursive trace: given enough fuel (one more than the
number of unvisited cells), every cell it marks beyond the initial
visited set has all its draining neighbours marked as well. -/
theorem traverseF_closed (g : Grid) :
    ∀ (f : ℕ) (V : Finset (ℕ × ℕ)) (r c : ℤ) (y : ℕ × ℕ), uvCount g V + 1 ≤ f →
      y ∈ traverseF f g V r c → y ∉ V →
      ∀ k, k < 8 → drainsInto g (y.1 : ℤ) (y.2 : ℤ) k → nbrCell y k ∈ traverseF f g V r c := by
  intro f
  induction f with
  | zero => intro V r c y hf; exact absurd hf (by omega)
  | succ f ih =>
    intro V r c y hf hy hyV k hk hd
    rw [traverseF] at hy ⊢
    by_cases h1 : g.inb r c
    · rw [if_neg (not_not_intro h1)] at hy ⊢
      by_cases h2 : (r.toNat, c.toNat) ∈ V
      · rw [if_pos h2] at hy ⊢
        exact absurd hy hyV
      · rw [if_neg h2] at hy ⊢
        have hx : (r.toNat, c.toNat) ∈ g.allCells := mem_allCells_of_inb h1
        have hins : uvCount g (insert (r.toNat, c.toNat) V) < uvCount g V :=
          uvCount_insert_lt hx h2
        have hf' : uvCount g (insert (r.toNat, c.toNat) V) + 1 ≤ f := by omega
        by_cases hyx : y = (r.toNat, c.toNat)
        · subst hyx
          obtain ⟨h0, hl1, h02, hl2⟩ := h1
          have hd' : drainsInto g r c k := (drainsInto_cast h0 h02 k).mp hd
          have hf1 : 1 ≤ f := by omega
          have hcov := traverseDirs_covers _ g r c
            (fun W r' c' => traverseF_mono g f W r' c')
            (fun W r' c' hinb' => traverseF_self_mem g f hf1 W r' c' hinb')
            (List.range 8) (insert ((r.toNat, c.toNat) : ℕ × ℕ) V) k
            (List.mem_range.mpr hk) hd'
          rw [nbrCell_cast h0 h02 k]
          exact hcov
        · have hyV' : y ∉ insert (r.toNat, c.toNat) V := by
            rw [Finset.mem_insert]
            intro hor
            rcases hor with h | h
            · exact hyx h
            · exact hyV h
          exact traverseDirs_closed g r c f (fun W r' c' => traverseF_mono g f W r' c')
            (fun W r' c' z hfz hz hzW k' hk' hd'' => ih W r' c' z hfz hz hzW k' hk' hd'')
            (List.range 8) _ hf' y hy hyV' k hk hd
    · rw [if_pos h1] at hy ⊢
      exact absurd hy hyV

/-- The recursive trace from an in-bounds pour cell marks exactly the
cells with an upstream path from the pour cell. -/
theorem v1_cells_iff_reach (g : Grid) (p : ℤ × ℤ) (hin : g.inb p.1 p.2) :
    ∀ y, y ∈ (calculate_upstream_v1 g p).cells ↔
      Relation.ReflTransGen (upEdge g) (p.1.toNat, p.2.toNat) y := by
  intro y
  show y ∈ traverseF (g.rows * g.cols + 1) g ∅ p.1 p.2 ↔ _
  constructor
  · intro hy
    rcases traverseF_sound g _ ∅ p.1 p.2 y hy with h | ⟨-, hr⟩
    · exact absurd h (Finset.not_mem_empty y)
    · exact hr
  · intro hr
    have hf : uvCount g ∅ + 1 ≤ g.rows * g.cols + 1 := by
      rw [uvCount_empty]
    induction hr with
    | refl => exact traverseF_self_mem g _ (by omega) ∅ p.1 p.2 hin
    | tail hstep hedge ih =>
      obtain ⟨k, hk8, hd, hy_eq⟩ := hedge
      rw [hy_eq]
      exact traverseF_closed g (g.rows * g.cols + 1) ∅ p.1 p.2 _ hf ih
        (Finset.not_mem_empty _) k hk8 hd

/-! ### C10 groundwork, part 4: anatomy of one iteration of the
iterative trace -/

/-- Old stack entries survive the direction sweep. -/
theorem pushNbrs_stack_old (g : Grid) (r c : ℤ) :
    ∀ (ks : List ℕ) (s : Finset (ℕ × ℕ) × List (ℤ × ℤ)) (q : ℤ × ℤ),
      q ∈ s.2 → q ∈ (pushNbrs g r c ks s).2 := by
  intro ks
  induction ks with
  | nil => intro s q hq; exact hq
  | cons k ks ih =>
    intro s q hq
    show q ∈ (pushNbrs g r c ks _).2
    by_cases h : drainsInto g r c k
    · rw [if_pos h]
      exact ih _ q (List.mem_cons_of_mem _ hq)
    · rw [if_neg h]
      exact ih s q hq

/-- Every stack entry after the sweep is an old entry or a pushed
draining neighbour. -/
theorem pushNbrs_stack_sound (g : Grid) (r c : ℤ) :
    ∀ (ks : List ℕ) (s : Finset (ℕ × ℕ) × List (ℤ × ℤ)) (q : ℤ × ℤ),
      q ∈ (pushNbrs g r c ks s).2 →
      q ∈ s.2 ∨ ∃ k ∈ ks, drainsInto g r c k ∧ q = (r + (off k).1, c + (off k).2) := by
  intro ks
  induction ks with
  | nil => intro s q hq; exact Or.inl hq
  | cons k ks ih =>
    intro s q hq
    have hq2 : q ∈ (pushNbrs g r c ks
        (if drainsInto g r c k then
          (insert ((r + (off k).1).toNat, (c + (off k).2).toNat) s.1,
            (r + (off k).1, c + (off k).2) :: s.2)
         else s)).2 := hq
    by_cases h : drainsInto g r c k
    · rw [if_pos h] at hq2
      rcases ih _ q hq2 with hold | ⟨k', hk', hd', he'⟩
      · rcases List.mem_cons.mp hold with he | hs
        · exact Or.inr ⟨k, List.mem_cons_self k ks, h, he⟩
        · exact Or.inl hs
      · exact Or.inr ⟨k', List.mem_cons_of_mem k hk', hd', he'⟩
    · rw [if_neg h] at hq2
      rcases ih s q hq2 with hold | ⟨k', hk', hd', he'⟩
      · exact Or.inl hold
      · exact Or.inr ⟨k', List.mem_cons_of_mem k hk', hd', he'⟩

/-- Every cell marked by the sweep is an old mark or a pushed draining
neighbour. -/
theorem pushNbrs_mask_sound (g : Grid) (r c : ℤ) :
    ∀ (ks : List ℕ) (s : Finset (ℕ × ℕ) × List (ℤ × ℤ)) (y : ℕ × ℕ),
      y ∈ (pushNbrs g r c ks s).1 →
      y ∈ s.1 ∨ ∃ k ∈ ks, drainsInto g r c k ∧
        y = ((r + (off k).1).toNat, (c + (off k).2).toNat) := by
  intro ks
  induction ks with
  | nil => intro s y hy; exact Or.inl hy
  | cons k ks ih =>
    intro s y hy
    have hy2 : y ∈ (pushNbrs g r c ks
        (if drainsInto g r c k then
          (insert ((r + (off k).1).toNat, (c + (off k).2).toNat) s.1,
            (r + (off k).1, c + (off k).2) :: s.2)
         else s)).1 := hy
    by_cases h : drainsInto g r c k
    · rw [if_pos h] at hy2
      rcases ih _ y hy2 with hold | ⟨k', hk', hd', he'⟩
      · rcases Finset.mem_insert.mp hold with he | hs
        · exact Or.inr ⟨k, List.mem_cons_self k ks, h, he⟩
        · exact Or.inl hs
      · exact Or.inr ⟨k', List.mem_cons_of_mem k hk', hd', he'⟩
    · rw [if_neg h] at hy2
      rcases ih s y hy2 with hold | ⟨k', hk', hd', he'⟩
      · exact Or.inl hold
      · exact Or.inr ⟨k', List.mem_cons_of_mem k hk', hd', he'⟩

/-- The sweep marks every listed draining neighbour. -/
theorem pushNbrs_mask_covers (g : Grid) (r c : ℤ) :
    ∀ (ks : List ℕ) (s : Finset (ℕ × ℕ) × List (ℤ × ℤ)) (k : ℕ), k ∈ ks →
      drainsInto g r c k →
      ((r + (off k).1).toNat, (c + (off k).2).toNat) ∈ (pushNbrs g r c ks s).1 := by
  intro ks
  induction ks with
  | nil => intro s k hk; exact absurd hk (List.not_mem_nil k)
  | cons k0 ks ih =>
    intro s k hk hd
    show _ ∈ (pushNbrs g r c ks _).1
    rcases List.mem_cons.mp hk with heq | hmem
    · subst heq
      rw [if_pos hd]
      exact pushNbrs_mask_mono g r c ks _ (Finset.mem_insert_self _ _)
    · by_cases h : drainsInto g r c k0
      · rw [if_pos h]
        exact ih _ k hmem hd
      · rw [if_neg h]
        exact ih s k hmem hd

/-- The sweep pushes every listed draining neighbour. -/
theorem pushNbrs_stack_covers (g : Grid) (r c : ℤ) :
    ∀ (ks : List ℕ) (s : Finset (ℕ × ℕ) × List (ℤ × ℤ)) (k : ℕ), k ∈ ks →
      drainsInto g r c k →
      (r + (off k).1, c + (off k).2) ∈ (pushNbrs g r c ks s).2 := by
  intro ks
  induction ks with
  | nil => intro s k hk; exact absurd hk (List.not_mem_nil k)
  | cons k0 ks ih =>
    intro s k hk hd
    show _ ∈ (pushNbrs g r c ks _).2
    rcases List.mem_cons.mp hk with heq | hmem
    · subst heq
      rw [if_pos hd]
      exact pushNbrs_stack_old g r c ks _ _ (List.mem_cons_self _ _)
    · by_cases h : drainsInto g r c k0
      · rw [if_pos h]
        exact ih _ k hmem hd
      · rw [if_neg h]
        exact ih s k hmem hd

/-! ### C10 groundwork, part 5: the loop invariant is preserved and
characterizes the final mask -/

/-- One loop iteration preserves the invariant. -/
theorem v2Inv_preserved (g : Grid) (p0 : ℕ × ℕ) (r c : ℤ) (rest : List (ℤ × ℤ))
    (mask : Finset (ℕ × ℕ)) (hinv : V2Inv g p0 mask ((r, c) :: rest)) :
    V2Inv g p0 (pushNbrs g r c (List.range 8) (mask, rest)).1
      (pushNbrs g r c (List.range 8) (mask, rest)).2 := by
  obtain ⟨hp0, hsound, hstack, hclose⟩ := hinv
  obtain ⟨hq0in, hq0mem⟩ := hstack (r, c) (List.mem_cons_self _ _)
  obtain ⟨h0, hl1, h02, hl2⟩ := hq0in
  refine ⟨pushNbrs_mask_mono g r c _ _ hp0, ?_, ?_, ?_⟩
  · intro y hy
    rcases pushNbrs_mask_sound g r c _ _ y hy with hold | ⟨k, hk, hd, he⟩
    · exact hsound y hold
    · subst he
      refine Relation.ReflTransGen.tail (hsound _ hq0mem) ?_
      exact ⟨k, List.mem_range.mp hk, (drainsInto_cast h0 h02 k).mpr hd,
        (nbrCell_cast h0 h02 k).symm⟩
  · intro q hq
    rcases pushNbrs_stack_sound g r c _ _ q hq with hold | ⟨k, hk, hd, he⟩
    · obtain ⟨hin', hmem'⟩ := hstack q (List.mem_cons_of_mem _ hold)
      exact ⟨hin', pushNbrs_mask_mono g r c _ _ hmem'⟩
    · subst he
      exact ⟨hd.1, pushNbrs_mask_covers g r c _ _ k hk hd⟩
  · intro y hy
    rcases pushNbrs_mask_sound g r c _ _ y hy with hold | ⟨k, hk, hd, he⟩
    · rcases hclose y hold with ⟨q, hqmem, hqeq⟩ | hcl
      · rcases List.mem_cons.mp hqmem with hq0' | hrest
        · subst hq0'
          refine Or.inr ?_
          intro k' hk' hd'
          rw [← hqeq] at hd' ⊢
          have hd'' : drainsInto g r c k' := (drainsInto_cast h0 h02 k').mp hd'
          rw [nbrCell_cast h0 h02 k']
          exact pushNbrs_mask_covers g r c _ _ k' (List.mem_range.mpr hk') hd''
        · exact Or.inl ⟨q, pushNbrs_stack_old g r c _ _ q hrest, hqeq⟩
      · exact Or.inr fun k' hk' hd' => pushNbrs_mask_mono g r c _ _ (hcl k' hk' hd')
    · subst he
      exact Or.inl ⟨(r + (off k).1, c + (off k).2),
        pushNbrs_stack_covers g r c _ _ k hk hd, rfl⟩

/-- If the loop finishes, the invariant holds of the final mask with an
empty stack. -/
theorem v2Loop_inv (g : Grid) (p0 : ℕ × ℕ) :
    ∀ (f : ℕ) (mask : Finset (ℕ × ℕ)) (stack : List (ℤ × ℤ)) (m : Finset (ℕ × ℕ)),
      V2Inv g p0 mask stack → v2Loop f g mask stack = some m → V2Inv g p0 m [] := by
  intro f
  induction f with
  | zero => intro mask stack m hinv h; exact absurd h (by simp [v2Loop])
  | succ f ih =>
    intro mask stack m hinv h
    match stack with
    | [] =>
      have hm : mask = m := by simpa [v2Loop] using h
      exact hm ▸ hinv
    | (r, c) :: rest =>
      have hstep : v2Loop f g (pushNbrs g r c (List.range 8) (mask, rest)).1
          (pushNbrs g r c (List.range 8) (mask, rest)).2 = some m := h
      exact ih _ _ m (v2Inv_preserved g p0 r c rest mask hinv) hstep

/-- With an empty stack the invariant pins the mask down to the reachable
set. -/
theorem v2Inv_final (g : Grid) (p0 : ℕ × ℕ) (m : Finset (ℕ × ℕ))
    (hinv : V2Inv g p0 m []) :
    ∀ y, y ∈ m ↔ Relation.ReflTransGen (upEdge g) p0 y := by
  obtain ⟨hp0, hsound, -, hclose⟩ := hinv
  intro y
  constructor
  · exact hsound y
  · intro hr
    induction hr with
    | refl => exact hp0
    | tail hstep hedge ih =>
      obtain ⟨k, hk8, hd, he⟩ := hedge
      rcases hclose _ ih with ⟨q, hq, -⟩ | hcl
      · exact absurd hq (List.not_mem_nil q)
      · rw [he]
        exact hcl k hk8 hd

/-- The invariant holds at loop entry for an in-bounds pour cell. -/
theorem v2Inv_init (g : Grid) (p : ℤ × ℤ) (hin : g.inb p.1 p.2) :
    V2Inv g (p.1.toNat, p.2.toNat) {(p.1.toNat, p.2.toNat)} [p] := by
  refine ⟨Finset.mem_singleton_self _, ?_, ?_, ?_⟩
  · intro y hy
    rw [Finset.mem_singleton] at hy
    exact hy ▸ Relation.ReflTransGen.refl
  · intro q hq
    rw [List.mem_singleton] at hq
    subst hq
    exact ⟨hin, Finset.mem_singleton_self _⟩
  · intro y hy
    rw [Finset.mem_singleton] at hy
    exact Or.inl ⟨p, List.mem_singleton_self p, hy ▸ rfl⟩

/-! ### C10 groundwork, part 6: termination under a rank function -/

/-- One direction sweep multiplies the stack measure by at most the
pop's own weight: each pushed neighbour weighs at most a ninth of the
popped cell's weight, and at most eight are pushed. -/
theorem pushNbrs_measure (g : Grid) (r c : ℤ) (rk : ℕ × ℕ → ℕ) (rq : ℕ)
    (hpush : ∀ k, k < 8 → drainsInto g r c k →
      rk ((r + (off k).1).toNat, (c + (off k).2).toNat) < rq) :
    ∀ ks : List ℕ, (∀ k ∈ ks, k < 8) → ∀ s : Finset (ℕ × ℕ) × List (ℤ × ℤ),
      9 * stackMeasure rk (pushNbrs g r c ks s).2 ≤
        9 * stackMeasure rk s.2 + ks.length * 9 ^ rq := by
  intro ks
  induction ks with
  | nil =>
    intro _ s
    simp [pushNbrs]
  | cons k ks ih =>
    intro hks s
    have hgoal_len : (k :: ks).length * 9 ^ rq = ks.length * 9 ^ rq + 9 ^ rq := by
      rw [List.length_cons, add_mul, one_mul]
    rw [hgoal_len]
    show 9 * stackMeasure rk (pushNbrs g r c ks _).2 ≤ _
    by_cases h : drainsInto g r c k
    · rw [if_pos h]
      have hk8 : k < 8 := hks k (List.mem_cons_self _ _)
      have hrklt : rk ((r + (off k).1).toNat, (c + (off k).2).toNat) < rq := hpush k hk8 h
      have hstep := ih (fun k' hk' => hks k' (List.mem_cons_of_mem _ hk'))
        (insert ((r + (off k).1).toNat, (c + (off k).2).toNat) s.1,
          (r + (off k).1, c + (off k).2) :: s.2)
      have hM : stackMeasure rk ((r + (off k).1, c + (off k).2) :: s.2) =
          9 ^ rk ((r + (off k).1).toNat, (c + (off k).2).toNat) + stackMeasure rk s.2 := rfl
      have hpow : 9 * 9 ^ rk ((r + (off k).1).toNat, (c + (off k).2).toNat) ≤ 9 ^ rq := by
        have h1 : 9 ^ (rk ((r + (off k).1).toNat, (c + (off k).2).toNat) + 1) ≤ 9 ^ rq :=
          Nat.pow_le_pow_right (by norm_num) (by omega)
        rw [pow_succ] at h1
        omega
      rw [hM] at hstep
      have hmul : 9 * (9 ^ rk ((r + (off k).1).toNat, (c + (off k).2).toNat) +
          stackMeasure rk s.2) =
          9 * 9 ^ rk ((r + (off k).1).toNat, (c + (off k).2).toNat) +
          9 * stackMeasure rk s.2 := by ring
      rw [hmul] at hstep
      generalize (9 : ℕ) ^ rq = PB at hstep hpow ⊢
      generalize (9 : ℕ) ^ rk ((r + (off k).1).toNat, (c + (off k).2).toNat) = PA
        at hstep hpow
      omega
    · rw [if_neg h]
      have hstep := ih (fun k' hk' => hks k' (List.mem_cons_of_mem _ hk')) s
      generalize (9 : ℕ) ^ rq = PB at hstep ⊢
      omega

/-- Under a rank function decreasing along upstream edges, the loop
finishes once the fuel exceeds the stack measure. -/
theorem v2Loop_term (g : Grid) (rk : ℕ × ℕ → ℕ)
    (hrk : ∀ x ∈ g.allCells, ∀ k ∈ Finset.range 8,
      drainsInto g (x.1 : ℤ) (x.2 : ℤ) k → rk (nbrCell x k) < rk x) :
    ∀ (f : ℕ) (mask : Finset (ℕ × ℕ)) (stack : List (ℤ × ℤ)),
      (∀ q ∈ stack, g.inb q.1 q.2) →
      stackMeasure rk stack < f → (v2Loop f g mask stack).isSome := by
  intro f
  induction f with
  | zero => intro mask stack hst hm; exact absurd hm (by omega)
  | succ f ih =>
    intro mask stack hst hm
    match stack with
    | [] => exact rfl
    | (r, c) :: rest =>
      obtain ⟨h0, hl1, h02, hl2⟩ := hst (r, c) (List.mem_cons_self _ _)
      have hpush : ∀ k, k < 8 → drainsInto g r c k →
          rk ((r + (off k).1).toNat, (c + (off k).2).toNat) < rk (r.toNat, c.toNat) := by
        intro k hk hd
        have hx : (r.toNat, c.toNat) ∈ g.allCells :=
          mem_allCells_of_inb ⟨h0, hl1, h02, hl2⟩
        have h := hrk _ hx k (Finset.mem_range.mpr hk) ((drainsInto_cast h0 h02 k).mpr hd)
        rw [nbrCell_cast h0 h02 k] at h
        exact h
      have hmeas := pushNbrs_measure g r c rk (rk (r.toNat, c.toNat)) hpush (List.range 8)
        (fun k hk => List.mem_range.mp hk) (mask, rest)
      have hMold : stackMeasure rk ((r, c) :: rest) =
          9 ^ rk (r.toNat, c.toNat) + stackMeasure rk rest := rfl
      have hlen : (List.range 8).length = 8 := List.length_range 8
      rw [hlen] at hmeas
      have hmeas' : 9 * stackMeasure rk (pushNbrs g r c (List.range 8) (mask, rest)).2 ≤
          9 * stackMeasure rk rest + 8 * 9 ^ rk (r.toNat, c.toNat) := hmeas
      have hpos : 0 < 9 ^ rk (r.toNat, c.toNat) := pow_pos (by norm_num) _
      rw [hMold] at hm
      have hst' : ∀ q ∈ (pushNbrs g r c (List.range 8) (mask, rest)).2, g.inb q.1 q.2 := by
        intro q hq
        rcases pushNbrs_stack_sound g r c _ _ q hq with hold | ⟨k, hk, hd, he⟩
        · exact hst q (List.mem_cons_of_mem _ hold)
        · subst he
          exact hd.1
      have hm' : stackMeasure rk (pushNbrs g r c (List.range 8) (mask, rest)).2 < f := by
        generalize (9 : ℕ) ^ rk (r.toNat, c.toNat) = PJ at hmeas' hpos hm
        omega
      exact ih _ _ hst' hm'

/-! ### C10 — the recursive and iterative traces agree on acyclic data -/

/-- C10: for any direction grid whose implied drainage graph is acyclic —
witnessed by a rank function strictly decreasing along upstream edges,
which for a finite graph is exactly acyclicity — and any in-bounds pour
cell, the iterative trace terminates, and its mask agrees with the
recursive trace's cell for cell (same shape, same 0/1 value everywhere):
both compute the set of cells with an upstream path to the pour cell. -/
theorem c10_v1_v2_same_mask :
    ∀ (g : Grid) (p : ℤ × ℤ) (rk : ℕ × ℕ → ℕ),
      g.inb p.1 p.2 →
      (∀ x ∈ g.allCells, ∀ k ∈ Finset.range 8,
        drainsInto g (x.1 : ℤ) (x.2 : ℤ) k → rk (nbrCell x k) < rk x) →
      ∃ (f : ℕ) (m : Mask),
        calculate_upstream_v2F f g p = .ok (some m) ∧
        (calculate_upstream_v1 g p).rows = m.rows ∧
        (calculate_upstream_v1 g p).cols = m.cols ∧
        ∀ r c : ℕ, (calculate_upstream_v1 g p).get r c = m.get r c := by
  intro g p rk hin hrk
  obtain ⟨h0, hl1, h02, hl2⟩ := hin
  have hterm := v2Loop_term g rk hrk (stackMeasure rk [p] + 1) {(p.1.toNat, p.2.toNat)} [p]
    (by
      intro q hq
      rw [List.mem_singleton] at hq
      subst hq
      exact ⟨h0, hl1, h02, hl2⟩)
    (by omega)
  rcases hs : v2Loop (stackMeasure rk [p] + 1) g {(p.1.toNat, p.2.toNat)} [p] with _ | s
  · rw [hs] at hterm
    exact absurd hterm (by simp)
  · refine ⟨stackMeasure rk [p] + 1, ⟨g.rows, g.cols, s⟩, ?_, rfl, rfl, ?_⟩
    · unfold calculate_upstream_v2F
      rw [wrapIdx_of_inb h0 hl1, wrapIdx_of_inb h02 hl2]
      show Except.ok ((v2Loop (stackMeasure rk [p] + 1) g {(p.1.toNat, p.2.toNat)} [p]).map
        fun s => Mask.mk g.rows g.cols s) = _
      rw [hs]
      rfl
    · have hinv := v2Loop_inv g (p.1.toNat, p.2.toNat) (stackMeasure rk [p] + 1) _ _ s
        (v2Inv_init g p ⟨h0, hl1, h02, hl2⟩) hs
      have hchar2 := v2Inv_final g _ s hinv
      have hchar1 := v1_cells_iff_reach g p ⟨h0, hl1, h02, hl2⟩
      intro r c
      have hiff : ((r, c) ∈ (calculate_upstream_v1 g p).cells) ↔ ((r, c) ∈ s) :=
        (hchar1 (r, c)).trans (hchar2 (r, c)).symm
      unfold Mask.get
      by_cases hmem : (r, c) ∈ s
      · rw [if_pos hmem, if_pos (hiff.mpr hmem)]
      · rw [if_neg hmem, if_neg fun hc => hmem (hiff.mp hc)]

/-- C10 witness: Scenario A's all-south grid is acyclic with the row
index as rank; the two traces produce identical masks from `(4, 2)`. -/
theorem c10_v1_v2_same_mask_witness :
    ∃ (f : ℕ) (m : Mask),
      calculate_upstream_v2F f gScenarioA (4, 2) = .ok (some m) ∧
      (calculate_upstream_v1 gScenarioA (4, 2)).rows = m.rows ∧
      (calculate_upstream_v1 gScenarioA (4, 2)).cols = m.cols ∧
      ∀ r c : ℕ, (calculate_upstream_v1 gScenarioA (4, 2)).get r c = m.get r c :=
  c10_v1_v2_same_mask gScenarioA (4, 2) (fun x => x.1) (by decide) (by decide)

/-- C7 amended witness: Scenario D's window, fully in bounds, selects
`(2, 2)`, the maximum 9, with every window cell at most 9. -/
theorem c7_amended_max_selection_witness :
    ((2 : ℤ), (2 : ℤ)) ∈ resample_matrix 1 1 1 ∧
    (∀ p ∈ resample_matrix 1 1 1,
      gRowMajor19.data p.1.toNat p.2.toNat ≤ gRowMajor19.data 2 2) ∧
    ∃ i, (resample_matrix 1 1 1).get? i = some (2, 2) ∧
      ∀ j < i, ∀ p, (resample_matrix 1 1 1).get? j = some p →
        gRowMajor19.data p.1.toNat p.2.toNat < gRowMajor19.data 2 2 :=
  c7_amended_max_selection.1 gRowMajor19 1 1 1 (2, 2) (by decide) (by decide)

end Dsi
